import Mathlib

/-!
Verification of the DocuTool perspective-correction and sheet-composition
code (src/src/App.tsx) against its natural-language specification.

The numeric core that the page delegates to OpenCV
(cv.getPerspectiveTransform, cv.warpPerspective) is modelled from the
specification (LinearSolver, ProjectiveTransformSolver, InverseMapper,
PerspectiveRectifier); everything that lives in App.tsx itself
(handleApplyCrop's corner scaling, side lengths, argument lists,
interpolation flag, resizeImage, drawIdCardCanvas, handleIdSelection)
is translated directly from the source.
-/

namespace DocuTool

/-- A point, as in App.tsx: `type Point = { x: number; y: number }`. -/
structure Pt (α : Type) where
  x : α
  y : α
  deriving Repr, DecidableEq

section GaussCore

variable {α : Type} [LinearOrderedField α]

/-- Modelled from the spec: LinearSolver pivot search (§4.1), "select the
row `k ≥ i` with the largest absolute value in column `i`".  Scans the
remaining column entries keeping the first index realising the maximum
absolute value. -/
def absMaxIdxAux : List α → ℕ → α → ℕ → ℕ
  | [], bi, _, _ => bi
  | a :: rest, bi, bv, i =>
      if bv < |a| then absMaxIdxAux rest i |a| (i + 1)
      else absMaxIdxAux rest bi bv (i + 1)

/-- Index of the first element of largest absolute value (0 on `[]`). -/
def absMaxIdx : List α → ℕ
  | [] => 0
  | a :: rest => absMaxIdxAux rest 0 |a| 1

/-- Head entry of a row (the current pivot column entry). -/
def rowHead (r : List α) : α := r.headD 0

/-- Pivot column: the heads of the remaining augmented rows. -/
def colEntries (rows : List (List α)) : List α := rows.map rowHead

/-- Modelled from the spec (§4.1): swap the selected pivot row into the
current position (row 0 of the remaining block). -/
def swapTop (j : ℕ) (rows : List (List α)) : List (List α) :=
  (rows.set 0 (rows.getD j [])).set j (rows.getD 0 [])

/-- Modelled from the spec (§4.1): eliminate the pivot column from a row
below the pivot, "subtracting `(A[k][i]/A[i][i]) × row[i]`"; the leading
entry (which becomes zero) is dropped. -/
def elimRow (p r : List α) : List α :=
  match p, r with
  | pp :: ps, rr :: rs => List.zipWith (fun pe re => re - rr / pp * pe) ps rs
  | _, _ => []

/-- Forward elimination over the augmented rows, with fuel = number of
pivot columns. -/
def forwardAux : ℕ → List (List α) → List (List α)
  | 0, _ => []
  | n + 1, rows =>
      match swapTop (absMaxIdx (colEntries rows)) rows with
      | [] => []
      | p :: rest => p :: forwardAux n (rest.map (elimRow p))

/-- Modelled from the spec (§4.1): forward phase of Gaussian elimination
with partial pivoting on the augmented matrix. -/
def forwardElim (rows : List (List α)) : List (List α) :=
  forwardAux rows.length rows

/-- Right-hand side minus the dot product with the already-solved
variables: `rhsMinus (coeffs ++ [rhs]) xs = rhs - Σ coeffs·xs`. -/
def rhsMinus : List α → List α → α
  | cs, [] => cs.headD 0
  | [], _ :: _ => 0
  | c :: cs, v :: vs => rhsMinus cs vs - c * v

/-- One back-substitution step on a triangular row `pivot :: coeffs ++ [rhs]`. -/
def backStep (r : List α) (xs : List α) : α :=
  match r with
  | [] => 0
  | d :: rest => rhsMinus rest xs / d

/-- Modelled from the spec (§4.1): back substitution from the last row up. -/
def backSubst : List (List α) → List α
  | [] => []
  | r :: rs =>
      let xs := backSubst rs
      backStep r xs :: xs

/-- Modelled from the spec: LinearSolver (§4.1), Gaussian elimination with
partial pivoting on an augmented system given as rows `coeffs ++ [rhs]`. -/
def gaussianSolve (rows : List (List α)) : List α :=
  backSubst (forwardElim rows)

/-- Modelled from the spec (§4.2): the two rows emitted for one point
correspondence `src → dst`, in the stated row form
`[src.x, src.y, 1, 0,0,0, -src.x·dst.x, -src.y·dst.x] · [a..h]ᵗ = dst.x`
and the symmetric row for `dst.y` (augmented with the right-hand side). -/
def corrRows (s d : Pt α) : List (List α) :=
  [[s.x, s.y, 1, 0, 0, 0, -(s.x * d.x), -(s.y * d.x), d.x],
   [0, 0, 0, s.x, s.y, 1, -(s.x * d.y), -(s.y * d.y), d.y]]

/-- Modelled from the spec: ProjectiveTransformSolver (§4.2), standing in
for `cv.getPerspectiveTransform`, whose body is not in the repository.
Emits two linear equations per correspondence, assembles the 8×8 system,
solves it by Gaussian elimination with partial pivoting, and appends the
fixed ninth coefficient 1. -/
def computeTransform (src dst : List (Pt α)) : List α :=
  gaussianSolve ((src.zip dst).flatMap (fun sd => corrRows sd.1 sd.2)) ++ [1]

/-- Modelled from the spec: InverseMapper (§4.3).  Given coefficients
`[a,b,c,d,e,f,g,h,…]` and a target coordinate, computes
`w = g·x + h·y + 1` and returns `((a·x+b·y+c)/w, (d·x+e·y+f)/w)`. -/
def mapPoint (m : List α) (x y : α) : Pt α :=
  let w := m.getD 6 0 * x + m.getD 7 0 * y + 1
  ⟨(m.getD 0 0 * x + m.getD 1 0 * y + m.getD 2 0) / w,
   (m.getD 3 0 * x + m.getD 4 0 * y + m.getD 5 0) / w⟩

/-- Apply a full 3×3 homography, stored row-major as a 9-list, to a point
(projective evaluation with denominator `m6·x + m7·y + m8`). -/
def applyH (m : List α) (x y : α) : Pt α :=
  let w := m.getD 6 0 * x + m.getD 7 0 * y + m.getD 8 0
  ⟨(m.getD 0 0 * x + m.getD 1 0 * y + m.getD 2 0) / w,
   (m.getD 3 0 * x + m.getD 4 0 * y + m.getD 5 0) / w⟩

/-- Determinant of a 3×3 homography stored row-major as a 9-list. -/
def det3 (m : List α) : α :=
  m.getD 0 0 * (m.getD 4 0 * m.getD 8 0 - m.getD 5 0 * m.getD 7 0)
  - m.getD 1 0 * (m.getD 3 0 * m.getD 8 0 - m.getD 5 0 * m.getD 6 0)
  + m.getD 2 0 * (m.getD 3 0 * m.getD 7 0 - m.getD 4 0 * m.getD 6 0)

/-- Modelled from the OpenCV contract stated by the spec (§4.2, §4.4):
`cv.warpPerspective`, when `WARP_INVERSE_MAP` is not set, first inverts
the supplied matrix algebraically; this is the adjugate-over-determinant
inverse of the 3×3 homography. -/
def invertH (m : List α) : List α :=
  let dt := det3 m
  [(m.getD 4 0 * m.getD 8 0 - m.getD 5 0 * m.getD 7 0) / dt,
   (m.getD 2 0 * m.getD 7 0 - m.getD 1 0 * m.getD 8 0) / dt,
   (m.getD 1 0 * m.getD 5 0 - m.getD 2 0 * m.getD 4 0) / dt,
   (m.getD 5 0 * m.getD 6 0 - m.getD 3 0 * m.getD 8 0) / dt,
   (m.getD 0 0 * m.getD 8 0 - m.getD 2 0 * m.getD 6 0) / dt,
   (m.getD 2 0 * m.getD 3 0 - m.getD 0 0 * m.getD 5 0) / dt,
   (m.getD 3 0 * m.getD 7 0 - m.getD 4 0 * m.getD 6 0) / dt,
   (m.getD 1 0 * m.getD 6 0 - m.getD 0 0 * m.getD 7 0) / dt,
   (m.getD 0 0 * m.getD 4 0 - m.getD 1 0 * m.getD 3 0) / dt]

end GaussCore

section Sampling

variable {α : Type} [LinearOrderedField α] [FloorRing α]

/-- One RGBA pixel: four channels (spec §3, RasterImage holds RGBA samples). -/
structure Px (α : Type) where
  r : α
  g : α
  b : α
  a : α
  deriving Repr, DecidableEq

/-- The all-zero (transparent) pixel, the value OpenCV's
`BORDER_CONSTANT` with `new cv.Scalar()` paints outside the source. -/
def pxZero : Px α := ⟨0, 0, 0, 0⟩

/-- Channelwise sum of two pixels. -/
def pxAdd (p q : Px α) : Px α := ⟨p.r + q.r, p.g + q.g, p.b + q.b, p.a + q.a⟩

/-- Channelwise scaling of a pixel. -/
def pxSmul (c : α) (p : Px α) : Px α := ⟨c * p.r, c * p.g, c * p.b, c * p.a⟩

/-- A raster image: width, height and a pixel grid (spec §3, RasterImage). -/
structure Raster (α : Type) where
  width : ℕ
  height : ℕ
  pix : ℕ → ℕ → Px α

/-- Bounds-checked source lookup: inside the raster it reads the pixel,
outside it yields the transparent border constant (App.tsx line 716
passes `cv.BORDER_CONSTANT, new cv.Scalar()`). -/
def pixAt (img : Raster α) (ix iy : ℤ) : Px α :=
  if 0 ≤ ix ∧ ix < img.width ∧ 0 ≤ iy ∧ iy < img.height then
    img.pix ix.toNat iy.toNat
  else pxZero

/-- Modelled from the OpenCV contract: `INTER_NEAREST`-style sampling as
the spec words it (§4.4 step 6): round the source coordinate to the
nearest integer and copy that single pixel. -/
def nearestSample (img : Raster α) (sx sy : α) : Px α :=
  pixAt img (round sx) (round sy)

/-- Modelled from the OpenCV contract: `INTER_LINEAR` bilinear sampling —
the four integer neighbours of the source coordinate blended by the
fractional parts. -/
def bilinearSample (img : Raster α) (sx sy : α) : Px α :=
  let x0 : ℤ := ⌊sx⌋
  let y0 : ℤ := ⌊sy⌋
  let fx : α := sx - x0
  let fy : α := sy - y0
  pxAdd (pxAdd (pxSmul ((1 - fx) * (1 - fy)) (pixAt img x0 y0))
               (pxSmul (fx * (1 - fy)) (pixAt img (x0 + 1) y0)))
        (pxAdd (pxSmul ((1 - fx) * fy) (pixAt img x0 (y0 + 1)))
               (pxSmul (fx * fy) (pixAt img (x0 + 1) (y0 + 1))))

/-- OpenCV interpolation flags that App.tsx could pass to
`cv.warpPerspective`. -/
inductive InterpFlag where
  | inter_nearest
  | inter_linear
  | inter_cubic
  deriving Repr, DecidableEq

/-- The interpolation flag handleApplyCrop passes to `cv.warpPerspective`
(App.tsx line 716: `cv.INTER_LINEAR`). -/
def cropInterpFlag : InterpFlag := InterpFlag.inter_linear

/-- Sampling dispatch on the interpolation flag (cubic is not modelled
further; the crop never selects it). -/
def sampleWith (flag : InterpFlag) (img : Raster α) (sx sy : α) : Px α :=
  match flag with
  | InterpFlag.inter_nearest => nearestSample img sx sy
  | InterpFlag.inter_linear => bilinearSample img sx sy
  | InterpFlag.inter_cubic => bilinearSample img sx sy

/-- Modelled from the OpenCV contract: one destination pixel of
`cv.warpPerspective src dst M dsize flag BORDER_CONSTANT Scalar()`:
the matrix `M` is first inverted algebraically, the destination
coordinate is mapped back through the inverse, and the source is sampled
there with the requested interpolation. -/
def warpPixel (flag : InterpFlag) (m : List α) (img : Raster α) (x y : α) : Px α :=
  let s := applyH (invertH m) x y
  sampleWith flag img s.x s.y

end Sampling

section CropPipeline

/-- `Math.hypot dx dy`, the Euclidean length used in App.tsx lines 704-707. -/
noncomputable def hypotR (dx dy : ℝ) : ℝ := Real.sqrt (dx ^ 2 + dy ^ 2)

/-- The inputs handleApplyCrop reads (App.tsx lines 700-703): whether the
original image and an editing record are present, the corner list in
display space, the original and display widths, and the source raster. -/
structure CropInput where
  hasOriginalSrc : Bool
  hasEditingImage : Bool
  corners : List (Pt ℝ)
  originalWidth : ℝ
  displayWidth : ℝ
  source : Raster ℝ

/-- `scaleRatio = originalImg.width / displayImg.width` (App.tsx line 702). -/
noncomputable def scaleRatio (inp : CropInput) : ℝ :=
  inp.originalWidth / inp.displayWidth

/-- `corners.map(p => ({x: p.x * scaleRatio, y: p.y * scaleRatio}))`
(App.tsx line 703). -/
def scaleCorners (r : ℝ) (cs : List (Pt ℝ)) : List (Pt ℝ) :=
  cs.map (fun p => ⟨p.x * r, p.y * r⟩)

/-- The scaled corners handleApplyCrop works with. -/
noncomputable def scaledCornersOf (inp : CropInput) : List (Pt ℝ) :=
  scaleCorners (scaleRatio inp) inp.corners

/-- Default point for out-of-range corner indexing. -/
def pt0 : Pt ℝ := ⟨0, 0⟩

/-- `w1 = Math.hypot(c[0].x - c[1].x, c[0].y - c[1].y)` (App.tsx line 704). -/
noncomputable def sideW1 (cs : List (Pt ℝ)) : ℝ :=
  hypotR ((cs.getD 0 pt0).x - (cs.getD 1 pt0).x)
         ((cs.getD 0 pt0).y - (cs.getD 1 pt0).y)

/-- `w2 = Math.hypot(c[3].x - c[2].x, c[3].y - c[2].y)` (App.tsx line 705). -/
noncomputable def sideW2 (cs : List (Pt ℝ)) : ℝ :=
  hypotR ((cs.getD 3 pt0).x - (cs.getD 2 pt0).x)
         ((cs.getD 3 pt0).y - (cs.getD 2 pt0).y)

/-- `h1 = Math.hypot(c[0].x - c[3].x, c[0].y - c[3].y)` (App.tsx line 706). -/
noncomputable def sideH1 (cs : List (Pt ℝ)) : ℝ :=
  hypotR ((cs.getD 0 pt0).x - (cs.getD 3 pt0).x)
         ((cs.getD 0 pt0).y - (cs.getD 3 pt0).y)

/-- `h2 = Math.hypot(c[1].x - c[2].x, c[1].y - c[2].y)` (App.tsx line 707). -/
noncomputable def sideH2 (cs : List (Pt ℝ)) : ℝ :=
  hypotR ((cs.getD 1 pt0).x - (cs.getD 2 pt0).x)
         ((cs.getD 1 pt0).y - (cs.getD 2 pt0).y)

/-- `maxWidth = Math.max(w1, w2)` (App.tsx line 708). -/
noncomputable def cropMaxWidth (cs : List (Pt ℝ)) : ℝ := max (sideW1 cs) (sideW2 cs)

/-- `maxHeight = Math.max(h1, h2)` (App.tsx line 708). -/
noncomputable def cropMaxHeight (cs : List (Pt ℝ)) : ℝ := max (sideH1 cs) (sideH2 cs)

/-- `srcPoints = scaledCorners.flatMap(p => [p.x, p.y])` (App.tsx line 709). -/
def flatPts {α : Type} (cs : List (Pt α)) : List α :=
  cs.flatMap (fun p => [p.x, p.y])

/-- `dstPoints = [0, 0, maxWidth, 0, maxWidth, maxHeight, 0, maxHeight]`
(App.tsx line 710). -/
noncomputable def dstPointsOf (cs : List (Pt ℝ)) : List ℝ :=
  [0, 0, cropMaxWidth cs, 0, cropMaxWidth cs, cropMaxHeight cs, 0, cropMaxHeight cs]

/-- The two point buffers handed to `cv.getPerspectiveTransform(srcTri, dstTri)`
in that order: `srcTri` from `srcPoints`, `dstTri` from `dstPoints`
(App.tsx lines 711-713). -/
noncomputable def cropSolverArgs (inp : CropInput) : List ℝ × List ℝ :=
  (flatPts (scaledCornersOf inp), dstPointsOf (scaledCornersOf inp))

/-- The axis-aligned destination rectangle `[(0,0),(w,0),(w,h),(0,h)]` as
a corner list (the points encoded flat in `dstPoints`). -/
def dstRectCorners {α : Type} [LinearOrderedField α] (w h : α) : List (Pt α) :=
  [⟨0, 0⟩, ⟨w, 0⟩, ⟨w, h⟩, ⟨0, h⟩]

/-- The homography handleApplyCrop obtains:
`M = cv.getPerspectiveTransform(srcTri, dstTri)` (App.tsx line 713),
with the solver modelled from the spec. -/
noncomputable def cropMatrix (inp : CropInput) : List ℝ :=
  let sc := scaledCornersOf inp
  computeTransform sc (dstRectCorners (cropMaxWidth sc) (cropMaxHeight sc))

/-- Modelled from the spec (§4.4 step 5) where App.tsx delegates the
allocation to OpenCV (`new cv.Size(maxWidth, maxHeight)`, line 715):
the output raster measures `round(W) × round(H)`, and each destination
pixel is produced by `cv.warpPerspective` with the `INTER_LINEAR` flag
from line 716. -/
noncomputable def warpedRaster (inp : CropInput) : Raster ℝ :=
  let sc := scaledCornersOf inp
  ⟨(round (cropMaxWidth sc)).toNat, (round (cropMaxHeight sc)).toNat,
   fun x y => warpPixel cropInterpFlag (cropMatrix inp) inp.source x y⟩

/-- The dimensions resizeImage leaves an image with (App.tsx lines 117-129):
unchanged when both are within `maxDimension`, otherwise the larger side
becomes `maxDimension` and the other is scaled by the same factor. -/
def resizeDims {α : Type} [LinearOrderedField α] (w h maxDim : α) : α × α :=
  if w ≤ maxDim ∧ h ≤ maxDim then (w, h)
  else if h < w then (maxDim, h * (maxDim / w))
  else (w * (maxDim / h), maxDim)

/-- What a successful crop produces: the warped raster and the dimensions
of the re-encoded copy stored in the gallery after
`resizeImage(highQualityCroppedUrl, 2000, 0.92)` (App.tsx line 720). -/
structure CropResult where
  warped : Raster ℝ
  storedDims : ℝ × ℝ

/-- The crop computation on valid inputs (App.tsx lines 702-720). -/
noncomputable def cropRun (inp : CropInput) : CropResult :=
  let wr := warpedRaster inp
  ⟨wr, resizeDims (wr.width : ℝ) (wr.height : ℝ) 2000⟩

/-- handleApplyCrop (App.tsx lines 701-720): line 701 throws
`"Initial conditions for crop not met."` when the original image is
missing, the corner list does not have exactly 4 entries, or no image is
being edited; otherwise the crop runs to completion. -/
noncomputable def handleApplyCrop (inp : CropInput) : Except String CropResult :=
  if inp.hasOriginalSrc = false ∨ inp.corners.length ≠ 4 ∨ inp.hasEditingImage = false then
    Except.error "Initial conditions for crop not met."
  else
    Except.ok (cropRun inp)

end CropPipeline

section SheetComposer

/-- `const cmToPx = (cm) => cm * 118.11` (App.tsx line 749). -/
def cmToPx (cm : ℚ) : ℚ := cm * (11811 / 100)

/-- `CONSTANTS.A4_WIDTH_PX_300DPI = 2480` (App.tsx line 59). -/
def a4WidthPx : ℚ := 2480

/-- `CONSTANTS.A4_HEIGHT_PX_300DPI = 3508` (App.tsx line 60). -/
def a4HeightPx : ℚ := 3508

/-- Where drawIdCardCanvas paints one card: position and size on the page. -/
structure Placement where
  x : ℚ
  y : ℚ
  w : ℚ
  h : ℚ
  deriving Repr, DecidableEq

/-- drawImageOnCanvas (App.tsx lines 766-777): scale so the drawn width is
`CARD_WIDTH_PX`, keep the aspect ratio, centre horizontally, and centre
vertically on `yPos`. -/
def placeCard (imgW imgH cardWpx yPos : ℚ) : Placement :=
  let scale := cardWpx / imgW
  let cardHeight := imgH * scale
  ⟨(a4WidthPx - cardWpx) / 2, yPos - cardHeight / 2, cardWpx, cardHeight⟩

/-- drawIdCardCanvas geometry (App.tsx lines 745-783): fixed A4 page,
`CARD_WIDTH_PX = cmToPx(cardWidthCm)`; one image is centred at
`canvas.height / 2`, two are centred at `canvas.height * 0.33` and
`canvas.height * 0.66`. -/
def sheetPlacements (dims : List (ℚ × ℚ)) (cardWidthCm : ℚ) : List Placement :=
  let cw := cmToPx cardWidthCm
  match dims with
  | [d] => [placeCard d.1 d.2 cw (a4HeightPx / 2)]
  | [d1, d2] => [placeCard d1.1 d1.2 cw (a4HeightPx * (33 / 100)),
                 placeCard d2.1 d2.2 cw (a4HeightPx * (66 / 100))]
  | _ => []

end SheetComposer

/-- handleIdSelection (App.tsx lines 1062-1069): toggle an already-selected
id out, append a new id while fewer than 2 are selected, otherwise keep
the selection and report the "maximum of 2 images" error toast (the
returned Bool). -/
def handleIdSelection (id : ℕ) (prev : List ℕ) : List ℕ × Bool :=
  if id ∈ prev then (prev.filter (fun i => i ≠ id), false)
  else if prev.length < 2 then (prev ++ [id], false)
  else (prev, true)

section Predicates

/-- Three points lie on one line (vanishing cross product, spec §3). -/
def collinear3 (p q r : Pt ℝ) : Prop :=
  (q.x - p.x) * (r.y - p.y) = (q.y - p.y) * (r.x - p.x)

/-- A degenerate corner set in the spec's sense (§3): three or more of the
four corners collinear (coincident points are collinear as well). -/
def degenerateCorners (c0 c1 c2 c3 : Pt ℝ) : Prop :=
  collinear3 c0 c1 c2 ∨ collinear3 c0 c1 c3 ∨ collinear3 c0 c2 c3 ∨ collinear3 c1 c2 c3

/-- A valid non-degenerate corner set: no three corners collinear. -/
def nondegenerateCorners (c0 c1 c2 c3 : Pt ℝ) : Prop :=
  ¬degenerateCorners c0 c1 c2 c3

/-- A point as a vector of the Euclidean plane, to state distances with
the genuine Euclidean metric. -/
noncomputable def toE2 (p : Pt ℝ) : EuclideanSpace ℝ (Fin 2) := ![p.x, p.y]

/-- The coefficients `m` satisfy the projective mapping identity of spec
§4.2 for the correspondence `s → d`:
`d.x·(g·s.x + h·s.y + 1) = a·s.x + b·s.y + c` and symmetrically for `d.y`. -/
def solvesCorrespondence {α : Type} [LinearOrderedField α] (m : List α) (s d : Pt α) : Prop :=
  d.x * (m.getD 6 0 * s.x + m.getD 7 0 * s.y + 1)
      = m.getD 0 0 * s.x + m.getD 1 0 * s.y + m.getD 2 0 ∧
  d.y * (m.getD 6 0 * s.x + m.getD 7 0 * s.y + 1)
      = m.getD 3 0 * s.x + m.getD 4 0 * s.y + m.getD 5 0

end Predicates

section ConcreteInputs

/-- A 1×1 transparent raster, used as a placeholder source. -/
noncomputable def blankRaster : Raster ℝ := ⟨1, 1, fun _ _ => pxZero⟩

/-- A crop attempt with an empty corner list. -/
noncomputable def inpNoCorners : CropInput := ⟨true, true, [], 1, 1, blankRaster⟩

/-- A crop with the 3-4-5-sided quadrilateral `(1,1),(5,1),(5,4),(1,4)`. -/
noncomputable def inpQuad : CropInput := ⟨true, true, [⟨1, 1⟩, ⟨5, 1⟩, ⟨5, 4⟩, ⟨1, 4⟩], 1, 1, blankRaster⟩

/-- A crop with the axis-aligned rectangle corners `(0,0),(4,0),(4,3),(0,3)`. -/
noncomputable def inpRect43 : CropInput := ⟨true, true, [⟨0, 0⟩, ⟨4, 0⟩, ⟨4, 3⟩, ⟨0, 3⟩], 1, 1, blankRaster⟩

/-- A crop whose four corners all sit on the x-axis (degenerate input). -/
noncomputable def inpCollinear : CropInput := ⟨true, true, [⟨0, 0⟩, ⟨1, 0⟩, ⟨2, 0⟩, ⟨3, 0⟩], 1, 1, blankRaster⟩

/-- A 2×1 test raster: a black transparent pixel next to a grey opaque one. -/
def img21 : Raster ℚ :=
  ⟨2, 1, fun x _ => if x = 0 then ⟨0, 0, 0, 0⟩ else ⟨100, 100, 100, 100⟩⟩

/-- A homography translating by half a pixel horizontally. -/
def mShiftHalf : List ℚ := [1, 0, 1 / 2, 0, 1, 0, 0, 0, 1]

/-- A homography translating by one whole pixel horizontally. -/
def mShiftOne : List ℚ := [1, 0, 1, 0, 1, 0, 0, 0, 1]

/-- The unit square as a source corner set over ℚ. -/
def srcSquareQ : List (Pt ℚ) := [⟨0, 0⟩, ⟨1, 0⟩, ⟨1, 1⟩, ⟨0, 1⟩]

/-- A properly projective (non-affine) destination quadrilateral over ℚ. -/
def dstQuadQ : List (Pt ℚ) := [⟨0, 0⟩, ⟨1, 0⟩, ⟨2, 2⟩, ⟨0, 1⟩]

/-- A crop whose corners exactly frame the 1×1 source raster. -/
noncomputable def inpId : CropInput :=
  ⟨true, true, [⟨0, 0⟩, ⟨1, 0⟩, ⟨1, 1⟩, ⟨0, 1⟩], 1, 1, blankRaster⟩

end ConcreteInputs

/-! Helper lemmas shared by the claim theorems. -/

theorem length_swapTop {α : Type} [LinearOrderedField α] (j : ℕ) (rows : List (List α)) :
    (swapTop j rows).length = rows.length := by
  simp [swapTop]

theorem backSubst_length {α : Type} [LinearOrderedField α] (rows : List (List α)) :
    (backSubst rows).length = rows.length := by
  induction rows with
  | nil => rfl
  | cons r rs ih => simp [backSubst, ih]

theorem forwardAux_length {α : Type} [LinearOrderedField α] (n : ℕ) (rows : List (List α)) :
    (forwardAux n rows).length = min n rows.length := by
  induction n generalizing rows with
  | zero => simp [forwardAux]
  | succ n ih =>
      rw [forwardAux]
      rcases h : swapTop (absMaxIdx (colEntries rows)) rows with _ | ⟨p, rest⟩
      · have h0 : rows.length = 0 := by
          have := length_swapTop (absMaxIdx (colEntries rows)) rows
          rw [h] at this
          simpa using this.symm
        simp [h0]
      · have hlen : rows.length = rest.length + 1 := by
          have := length_swapTop (absMaxIdx (colEntries rows)) rows
          rw [h] at this
          simpa using this.symm
        simp [ih, hlen, Nat.succ_min_succ]

theorem gaussianSolve_length {α : Type} [LinearOrderedField α] (rows : List (List α)) :
    (gaussianSolve rows).length = rows.length := by
  simp [gaussianSolve, forwardElim, backSubst_length, forwardAux_length]

/-- Sampling a raster with bilinear interpolation at an exactly integral
coordinate reads the single pixel there (out-of-bounds lookups carry
weight zero). -/
theorem bilinearSample_intCast {α : Type} [LinearOrderedField α] [FloorRing α]
    (img : Raster α) (ix iy : ℤ) :
    bilinearSample img (ix : α) (iy : α) = pixAt img ix iy := by
  simp [bilinearSample, Int.floor_intCast, pxAdd, pxSmul, pxZero]

/-- The Euclidean metric on the plane agrees with `Math.hypot` of the
coordinate differences. -/
theorem dist_toE2 (p q : Pt ℝ) :
    dist (toE2 p) (toE2 q) = hypotR (p.x - q.x) (p.y - q.y) := by
  rw [EuclideanSpace.dist_eq, hypotR]
  congr 1
  rw [Fin.sum_univ_two]
  simp [toE2, Real.dist_eq, sq_abs]

/-- C10: the ID-card selection state keeps at most 2 distinct image ids
with no duplicates; selecting a selected id removes it, selecting a new
id with fewer than 2 selected appends it, and selecting a new id with 2
already selected leaves the state unchanged and reports the error toast. -/
theorem handleIdSelection_spec (id : ℕ) (prev : List ℕ)
    (hnd : prev.Nodup) (hlen : prev.length ≤ 2) :
    ((handleIdSelection id prev).1.Nodup ∧ (handleIdSelection id prev).1.length ≤ 2) ∧
    (id ∈ prev →
        handleIdSelection id prev = (prev.filter (fun i => i ≠ id), false) ∧
        id ∉ (handleIdSelection id prev).1) ∧
    (id ∉ prev → prev.length < 2 → handleIdSelection id prev = (prev ++ [id], false)) ∧
    (id ∉ prev → prev.length = 2 → handleIdSelection id prev = (prev, true)) := by
  unfold handleIdSelection
  by_cases hmem : id ∈ prev
  · rw [if_pos hmem]
    refine ⟨⟨hnd.filter _, le_trans (prev.length_filter_le _) hlen⟩, ?_, ?_, ?_⟩
    · intro _
      refine ⟨rfl, ?_⟩
      simp
    · intro hno; exact absurd hmem hno
    · intro hno; exact absurd hmem hno
  · rw [if_neg hmem]
    by_cases hsmall : prev.length < 2
    · rw [if_pos hsmall]
      refine ⟨⟨?_, ?_⟩, ?_, ?_, ?_⟩
      · simp [List.nodup_append, hnd, hmem]
      · simp only [List.length_append, List.length_singleton]
        omega
      · intro hmem2; exact absurd hmem2 hmem
      · intro _ _; rfl
      · intro _ h2; omega
    · rw [if_neg hsmall]
      refine ⟨⟨hnd, hlen⟩, ?_, ?_, ?_⟩
      · intro hmem2; exact absurd hmem2 hmem
      · intro _ hlt; exact absurd hlt hsmall
      · intro _ _; rfl

/-- C10 witness: concrete runs of all three behaviours. -/
theorem handleIdSelection_spec_witness :
    handleIdSelection 1 [1, 2] = ([2], false) ∧
    handleIdSelection 3 [1] = ([1, 3], false) ∧
    handleIdSelection 3 [1, 2] = ([1, 2], true) := by
  have h1 := handleIdSelection_spec 1 [1, 2] (by decide) (by decide)
  have h2 := handleIdSelection_spec 3 [1] (by decide) (by decide)
  have h3 := handleIdSelection_spec 3 [1, 2] (by decide) (by decide)
  refine ⟨?_, ?_, ?_⟩
  · rw [(h1.2.1 (by decide)).1]; rfl
  · exact h2.2.2.1 (by decide) (by decide)
  · exact h3.2.2.2 (by decide) (by decide)

/-- C8: a crop invocation whose corner set does not have exactly 4 points
terminates with the explicit error thrown at App.tsx line 701 instead of
degrading into a lower-quality output. -/
theorem handleApplyCrop_wrongCornerCount (inp : CropInput)
    (h : inp.corners.length ≠ 4) :
    handleApplyCrop inp = Except.error "Initial conditions for crop not met." := by
  unfold handleApplyCrop
  rw [if_pos (Or.inr (Or.inl h))]

/-- C8 witness: the crop attempt with an empty corner list errors out. -/
theorem handleApplyCrop_wrongCornerCount_witness :
    handleApplyCrop inpNoCorners = Except.error "Initial conditions for crop not met." :=
  handleApplyCrop_wrongCornerCount inpNoCorners (by simp [inpNoCorners])

/-- C6: a crop on 4 collinear or coincident corners still runs to
completion — the only error branch is the corner-count/presence check of
App.tsx line 701, so numerical degeneracy produces an `ok` result (of
whatever quality) rather than an exception. -/
theorem handleApplyCrop_degenerate_ok (inp : CropInput) (c0 c1 c2 c3 : Pt ℝ)
    (hc : inp.corners = [c0, c1, c2, c3])
    (hsrc : inp.hasOriginalSrc = true) (hedit : inp.hasEditingImage = true)
    (_hdeg : degenerateCorners c0 c1 c2 c3) :
    handleApplyCrop inp = Except.ok (cropRun inp) := by
  unfold handleApplyCrop
  rw [if_neg]
  push_neg
  exact ⟨by simp [hsrc], by simp [hc], by simp [hedit]⟩

/-- C6 witness: four corners on the x-axis produce an `ok` crop result. -/
theorem handleApplyCrop_degenerate_ok_witness :
    handleApplyCrop inpCollinear = Except.ok (cropRun inpCollinear) := by
  refine handleApplyCrop_degenerate_ok inpCollinear ⟨0, 0⟩ ⟨1, 0⟩ ⟨2, 0⟩ ⟨3, 0⟩ rfl rfl rfl ?_
  refine Or.inl ?_
  simp [collinear3]

/-- C7: sheet composition converts 1 cm to exactly 118.11 pixels on a
fixed 2480×3508 page; each image keeps its aspect ratio with drawn width
equal to the card width in pixels; one image is centred at half the page
height, two at the 0.33 and 0.66 marks, which lie within 1% of the page
height of 1/3 and 2/3. -/
theorem sheetComposer_spec (w1 h1 w2 h2 cardCm : ℚ) :
    cmToPx 1 = 11811 / 100 ∧ a4WidthPx = 2480 ∧ a4HeightPx = 3508 ∧
    sheetPlacements [(w1, h1)] cardCm
      = [placeCard w1 h1 (cmToPx cardCm) (a4HeightPx / 2)] ∧
    sheetPlacements [(w1, h1), (w2, h2)] cardCm
      = [placeCard w1 h1 (cmToPx cardCm) (a4HeightPx * (33 / 100)),
         placeCard w2 h2 (cmToPx cardCm) (a4HeightPx * (66 / 100))] ∧
    (∀ imgW imgH yPos : ℚ, 0 < imgW →
        (placeCard imgW imgH (cmToPx cardCm) yPos).w = cmToPx cardCm ∧
        (placeCard imgW imgH (cmToPx cardCm) yPos).h * imgW
          = imgH * (placeCard imgW imgH (cmToPx cardCm) yPos).w ∧
        (placeCard imgW imgH (cmToPx cardCm) yPos).y
          + (placeCard imgW imgH (cmToPx cardCm) yPos).h / 2 = yPos) ∧
    |a4HeightPx * (33 / 100) - a4HeightPx / 3| ≤ a4HeightPx / 100 ∧
    |a4HeightPx * (66 / 100) - a4HeightPx * 2 / 3| ≤ a4HeightPx / 100 := by
  refine ⟨by norm_num [cmToPx], rfl, rfl, rfl, rfl, ?_,
          by rw [a4HeightPx]; norm_num; rw [abs_of_pos (by norm_num)]; norm_num,
          by rw [a4HeightPx]; norm_num; rw [abs_of_pos (by norm_num)]; norm_num⟩
  intro imgW imgH yPos hw
  refine ⟨rfl, ?_, ?_⟩
  · show imgH * (cmToPx cardCm / imgW) * imgW = imgH * cmToPx cardCm
    field_simp
  · show yPos - imgH * (cmToPx cardCm / imgW) / 2 + imgH * (cmToPx cardCm / imgW) / 2 = yPos
    ring

/-- C7 witness: the placement facts at a concrete 300×200 image and 9 cm
card width. -/
theorem sheetComposer_spec_witness :
    (placeCard 300 200 (cmToPx 9) 1754).w = cmToPx 9 ∧
    (placeCard 300 200 (cmToPx 9) 1754).h * 300 = 200 * (placeCard 300 200 (cmToPx 9) 1754).w ∧
    (placeCard 300 200 (cmToPx 9) 1754).y + (placeCard 300 200 (cmToPx 9) 1754).h / 2 = 1754 := by
  have h := sheetComposer_spec 300 200 300 200 9
  exact h.2.2.2.2.2.1 300 200 1754 (by norm_num)

/-- C9: the dimensions stored in the gallery after a crop come from
`resizeImage(.., 2000, ..)`: both stay at most 2000, small results pass
through unchanged, and a result exceeding 2000 in either direction is
scaled, preserving aspect ratio, so its larger dimension is exactly 2000
— the warped target-rectangle dimensions are then not preserved. -/
theorem cropStoredDims_spec (w h : ℝ) :
    (∀ inp : CropInput,
        (cropRun inp).storedDims
          = resizeDims ((warpedRaster inp).width : ℝ) ((warpedRaster inp).height : ℝ) 2000) ∧
    (resizeDims w h 2000).1 ≤ 2000 ∧ (resizeDims w h 2000).2 ≤ 2000 ∧
    (w ≤ 2000 → h ≤ 2000 → resizeDims w h 2000 = (w, h)) ∧
    (2000 < w ∨ 2000 < h →
        max (resizeDims w h 2000).1 (resizeDims w h 2000).2 = 2000 ∧
        (resizeDims w h 2000).1 * h = w * (resizeDims w h 2000).2 ∧
        resizeDims w h 2000 ≠ (w, h)) := by
  refine ⟨fun inp => rfl, ?_⟩
  unfold resizeDims
  split_ifs with hboth hwide
  · refine ⟨hboth.1, hboth.2, fun _ _ => rfl, ?_⟩
    rintro (hw | hh)
    · exact absurd hboth.1 (not_le.mpr hw)
    · exact absurd hboth.2 (not_le.mpr hh)
  · have hw2000 : 2000 < w := by
      rcases not_and_or.mp hboth with hw | hh
      · exact not_le.mp hw
      · exact lt_trans (not_le.mp hh) hwide
    have hwpos : (0:ℝ) < w := lt_trans (by norm_num) hw2000
    have hbound : h * (2000 / w) ≤ 2000 := by
      calc h * (2000 / w) ≤ w * (2000 / w) :=
            mul_le_mul_of_nonneg_right hwide.le (by positivity)
        _ = 2000 := by field_simp
    refine ⟨le_refl _, hbound, ?_, ?_⟩
    · intro hw' _
      exact absurd hw' (not_le.mpr hw2000)
    · intro _
      refine ⟨max_eq_left hbound, ?_, ?_⟩
      · show 2000 * h = w * (h * (2000 / w))
        field_simp
        ring
      · intro heq
        have : (2000:ℝ) = w := congrArg Prod.fst heq
        exact absurd this.symm (ne_of_gt hw2000)
  · have hwh : w ≤ h := not_lt.mp hwide
    have hh2000 : 2000 < h := by
      rcases not_and_or.mp hboth with hw | hh
      · exact lt_of_lt_of_le (not_le.mp hw) hwh
      · exact not_le.mp hh
    have hhpos : (0:ℝ) < h := lt_trans (by norm_num) hh2000
    have hbound : w * (2000 / h) ≤ 2000 := by
      calc w * (2000 / h) ≤ h * (2000 / h) :=
            mul_le_mul_of_nonneg_right hwh (by positivity)
        _ = 2000 := by field_simp
    refine ⟨hbound, le_refl _, ?_, ?_⟩
    · intro _ hh'
      exact absurd hh' (not_le.mpr hh2000)
    · intro _
      refine ⟨max_eq_right hbound, ?_, ?_⟩
      · show w * (2000 / h) * h = w * 2000
        field_simp
      · intro heq
        have : (2000:ℝ) = h := congrArg Prod.snd heq
        exact absurd this.symm (ne_of_gt hh2000)

/-- C9 witness: a 3000×1000 warp result is stored clamped with its larger
dimension exactly 2000, while a 500×400 result passes through unchanged. -/
theorem cropStoredDims_spec_witness :
    max (resizeDims (3000:ℝ) 1000 2000).1 (resizeDims (3000:ℝ) 1000 2000).2 = 2000 ∧
    resizeDims (3000:ℝ) 1000 2000 ≠ (3000, 1000) ∧
    resizeDims (500:ℝ) 400 2000 = (500, 400) := by
  have h1 := cropStoredDims_spec 3000 1000
  have h2 := cropStoredDims_spec (500:ℝ) 400
  exact ⟨(h1.2.2.2.2 (Or.inl (by norm_num))).1,
         (h1.2.2.2.2 (Or.inl (by norm_num))).2.2,
         h2.2.2.2.1 (by norm_num) (by norm_num)⟩

/-- C3: the homography coefficients come from emitting two linear
equations per correspondence in the documented row form, assembling the
8×8 system, solving it by Gaussian elimination with partial pivoting, and
fixing the 9th coefficient at 1; on a concrete non-degenerate
correspondence the returned coefficients do satisfy all eight projective
mapping identities. -/
theorem computeTransform_spec (s0 s1 s2 s3 d0 d1 d2 d3 : Pt ℚ) :
    computeTransform [s0, s1, s2, s3] [d0, d1, d2, d3]
      = gaussianSolve
          [[s0.x, s0.y, 1, 0, 0, 0, -(s0.x * d0.x), -(s0.y * d0.x), d0.x],
           [0, 0, 0, s0.x, s0.y, 1, -(s0.x * d0.y), -(s0.y * d0.y), d0.y],
           [s1.x, s1.y, 1, 0, 0, 0, -(s1.x * d1.x), -(s1.y * d1.x), d1.x],
           [0, 0, 0, s1.x, s1.y, 1, -(s1.x * d1.y), -(s1.y * d1.y), d1.y],
           [s2.x, s2.y, 1, 0, 0, 0, -(s2.x * d2.x), -(s2.y * d2.x), d2.x],
           [0, 0, 0, s2.x, s2.y, 1, -(s2.x * d2.y), -(s2.y * d2.y), d2.y],
           [s3.x, s3.y, 1, 0, 0, 0, -(s3.x * d3.x), -(s3.y * d3.x), d3.x],
           [0, 0, 0, s3.x, s3.y, 1, -(s3.x * d3.y), -(s3.y * d3.y), d3.y]] ++ [1] ∧
    (computeTransform [s0, s1, s2, s3] [d0, d1, d2, d3]).length = 9 ∧
    (computeTransform [s0, s1, s2, s3] [d0, d1, d2, d3]).getLast? = some 1 ∧
    ∀ sd ∈ srcSquareQ.zip dstQuadQ,
      solvesCorrespondence (computeTransform srcSquareQ dstQuadQ) sd.1 sd.2 := by
  refine ⟨rfl, ?_, ?_, ?_⟩
  · rw [computeTransform]
    rw [List.length_append, gaussianSolve_length]
    rfl
  · rw [computeTransform]
    exact List.getLast?_concat _
  · have hval : computeTransform srcSquareQ dstQuadQ
        = [2/3, 0, 0, 0, 2/3, 0, -1/3, -1/3, 1] := by
      norm_num [computeTransform, gaussianSolve, forwardElim, forwardAux, colEntries,
        rowHead, absMaxIdx, absMaxIdxAux, swapTop, elimRow, backSubst, backStep, rhsMinus,
        corrRows, srcSquareQ, dstQuadQ, abs_of_nonneg, abs_of_neg, List.getD, List.zipWith,
        List.set]
    rw [hval]
    norm_num [srcSquareQ, dstQuadQ, solvesCorrespondence, List.getD]

/-- C3 witness: the fixed last coefficient and one concrete mapping
identity, read off from the general theorem. -/
theorem computeTransform_spec_witness :
    (computeTransform srcSquareQ dstQuadQ).getLast? = some 1 ∧
    solvesCorrespondence (computeTransform srcSquareQ dstQuadQ)
      (⟨1, 1⟩ : Pt ℚ) (⟨2, 2⟩ : Pt ℚ) := by
  have h := computeTransform_spec ⟨0, 0⟩ ⟨1, 0⟩ ⟨1, 1⟩ ⟨0, 1⟩ ⟨0, 0⟩ ⟨1, 0⟩ ⟨2, 2⟩ ⟨0, 1⟩
  constructor
  · exact h.2.2.1
  · exact h.2.2.2 ⟨⟨1, 1⟩, ⟨2, 2⟩⟩ (by norm_num [srcSquareQ, dstQuadQ])

/-- C2 counterexample: with the `INTER_LINEAR` flag handleApplyCrop
passes, the destination pixel at (1,0) of a half-pixel shift on a 2×1
raster is the 50/50 blend of the two source pixels — not the pixel the
claim's rounded-coordinate copy rule would give, and not equal to any
single source pixel. -/
theorem crop_sampling_not_nearest :
    warpPixel cropInterpFlag mShiftHalf img21 1 0 = ⟨50, 50, 50, 50⟩ ∧
    nearestSample img21 (mapPoint (invertH mShiftHalf) 1 0).x
        (mapPoint (invertH mShiftHalf) 1 0).y = ⟨100, 100, 100, 100⟩ ∧
    warpPixel cropInterpFlag mShiftHalf img21 1 0
      ≠ nearestSample img21 (mapPoint (invertH mShiftHalf) 1 0).x
          (mapPoint (invertH mShiftHalf) 1 0).y ∧
    warpPixel cropInterpFlag mShiftHalf img21 1 0 ≠ img21.pix 0 0 ∧
    warpPixel cropInterpFlag mShiftHalf img21 1 0 ≠ img21.pix 1 0 := by
  have hwarp : warpPixel cropInterpFlag mShiftHalf img21 1 0 = ⟨50, 50, 50, 50⟩ := by
    norm_num [warpPixel, cropInterpFlag, sampleWith, bilinearSample, applyH, invertH, det3,
      mShiftHalf, img21, pixAt, pxAdd, pxSmul, pxZero, List.getD]
  have hnear : nearestSample img21 (mapPoint (invertH mShiftHalf) 1 0).x
      (mapPoint (invertH mShiftHalf) 1 0).y = ⟨100, 100, 100, 100⟩ := by
    norm_num [nearestSample, mapPoint, invertH, det3, mShiftHalf, img21, pixAt,
      List.getD, round_eq]
  refine ⟨hwarp, hnear, ?_, ?_, ?_⟩
  · rw [hwarp, hnear]
    simp
  · rw [hwarp]
    simp [img21]
  · rw [hwarp]
    simp [img21]

/-- C2 amended: rectification samples with bilinear interpolation
(`cv.INTER_LINEAR`): the four neighbours of the inverse-mapped source
coordinate are blended, and only when that coordinate is exactly an
in-bounds integer does the blend reduce to copying that single pixel. -/
theorem crop_sampling_bilinear {α : Type} [LinearOrderedField α] [FloorRing α]
    (img : Raster α) (m : List α) (x y : α) (ix iy : ℕ)
    (hx : (applyH (invertH m) x y).x = ix) (hy : (applyH (invertH m) x y).y = iy)
    (hix : ix < img.width) (hiy : iy < img.height) :
    (∀ img2 : Raster α, ∀ sx sy : α,
        sampleWith cropInterpFlag img2 sx sy = bilinearSample img2 sx sy) ∧
    warpPixel cropInterpFlag m img x y = img.pix ix iy := by
  refine ⟨fun img2 sx sy => rfl, ?_⟩
  rw [warpPixel]
  show bilinearSample img (applyH (invertH m) x y).x (applyH (invertH m) x y).y = _
  rw [hx, hy]
  have hcast : ∀ n : ℕ, ((n : α)) = (((n : ℤ) : α)) := by
    intro n
    push_cast
    rfl
  rw [hcast ix, hcast iy, bilinearSample_intCast]
  rw [pixAt, if_pos]
  · simp
  · refine ⟨Int.natCast_nonneg ix, ?_, Int.natCast_nonneg iy, ?_⟩
    · exact_mod_cast hix
    · exact_mod_cast hiy

/-- C2 amended witness: a whole-pixel shift lands on an exact integer
source coordinate and copies that pixel. -/
theorem crop_sampling_bilinear_witness :
    warpPixel cropInterpFlag mShiftOne img21 1 0 = img21.pix 0 0 :=
  (crop_sampling_bilinear img21 mShiftOne 1 0 0 0
    (by norm_num [applyH, invertH, det3, mShiftOne, List.getD])
    (by norm_num [applyH, invertH, det3, mShiftOne, List.getD])
    (by norm_num [img21]) (by norm_num [img21])).2

/-- C4 counterexample: on the quadrilateral `(1,1),(5,1),(5,4),(1,4)` the
pair handed to `cv.getPerspectiveTransform` is (corners, destination
rectangle) — the swapped order (destination rectangle as the source
argument) that the claim asserts does not occur. -/
theorem crop_solver_args_not_swapped :
    cropSolverArgs inpQuad = ([1, 1, 5, 1, 5, 4, 1, 4], [0, 0, 4, 0, 4, 3, 0, 3]) ∧
    cropSolverArgs inpQuad ≠ ([0, 0, 4, 0, 4, 3, 0, 3], [1, 1, 5, 1, 5, 4, 1, 4]) := by
  have hsc : scaledCornersOf inpQuad = [⟨1, 1⟩, ⟨5, 1⟩, ⟨5, 4⟩, ⟨1, 4⟩] := by
    norm_num [scaledCornersOf, scaleCorners, scaleRatio, inpQuad]
  have h16 : Real.sqrt 16 = 4 := by
    rw [show (16:ℝ) = 4 ^ 2 by norm_num, Real.sqrt_sq (by norm_num : (0:ℝ) ≤ 4)]
  have h9 : Real.sqrt 9 = 3 := by
    rw [show (9:ℝ) = 3 ^ 2 by norm_num, Real.sqrt_sq (by norm_num : (0:ℝ) ≤ 3)]
  have hmw : cropMaxWidth (scaledCornersOf inpQuad) = 4 := by
    rw [hsc]
    norm_num [cropMaxWidth, sideW1, sideW2, hypotR, List.getD, h16]
  have hmh : cropMaxHeight (scaledCornersOf inpQuad) = 3 := by
    rw [hsc]
    norm_num [cropMaxHeight, sideH1, sideH2, hypotR, List.getD, h9]
  have hargs : cropSolverArgs inpQuad
      = ([1, 1, 5, 1, 5, 4, 1, 4], [0, 0, 4, 0, 4, 3, 0, 3]) := by
    rw [cropSolverArgs, dstPointsOf, hmw, hmh, hsc]
    norm_num [flatPts]
  refine ⟨hargs, ?_⟩
  rw [hargs]
  simp

/-- C4 amended: handleApplyCrop computes the forward transform — the
solver receives (scaled user corners, destination rectangle) in that
order — and the destination-to-source mapping is produced inside
warpPerspective by algebraically inverting that matrix. -/
theorem crop_solver_args_forward (inp : CropInput) :
    cropSolverArgs inp
      = (flatPts (scaledCornersOf inp), dstPointsOf (scaledCornersOf inp)) ∧
    (∀ cs : List (Pt ℝ),
        dstPointsOf cs
          = flatPts (dstRectCorners (cropMaxWidth cs) (cropMaxHeight cs))) ∧
    cropMatrix inp
      = computeTransform (scaledCornersOf inp)
          (dstRectCorners (cropMaxWidth (scaledCornersOf inp))
            (cropMaxHeight (scaledCornersOf inp))) ∧
    ∀ x y : ℕ, (warpedRaster inp).pix x y
        = sampleWith cropInterpFlag inp.source
            (applyH (invertH (cropMatrix inp)) (x : ℝ) (y : ℝ)).x
            (applyH (invertH (cropMatrix inp)) (x : ℝ) (y : ℝ)).y := by
  refine ⟨rfl, ?_, rfl, fun x y => rfl⟩
  intro cs
  simp [dstPointsOf, dstRectCorners, flatPts]

/-- C1: the warped output raster measures `round(max(dist(c0,c1),
dist(c3,c2)))` by `round(max(dist(c0,c3), dist(c1,c2)))`, where the
distances are Euclidean distances between the display-to-original scaled
corners. -/
theorem cropOutputDims_spec (inp : CropInput) (c0 c1 c2 c3 : Pt ℝ)
    (hc : scaledCornersOf inp = [c0, c1, c2, c3])
    (_hnd : nondegenerateCorners c0 c1 c2 c3) :
    ((warpedRaster inp).width : ℤ)
        = round (max (dist (toE2 c0) (toE2 c1)) (dist (toE2 c3) (toE2 c2))) ∧
    ((warpedRaster inp).height : ℤ)
        = round (max (dist (toE2 c0) (toE2 c3)) (dist (toE2 c1) (toE2 c2))) := by
  have hW : cropMaxWidth (scaledCornersOf inp)
      = max (dist (toE2 c0) (toE2 c1)) (dist (toE2 c3) (toE2 c2)) := by
    rw [hc]
    simp [cropMaxWidth, sideW1, sideW2, dist_toE2, List.getD]
  have hH : cropMaxHeight (scaledCornersOf inp)
      = max (dist (toE2 c0) (toE2 c3)) (dist (toE2 c1) (toE2 c2)) := by
    rw [hc]
    simp [cropMaxHeight, sideH1, sideH2, dist_toE2, List.getD]
  have hnnW : 0 ≤ round (cropMaxWidth (scaledCornersOf inp)) := by
    rw [round_eq, Int.floor_nonneg]
    have := dist_nonneg (x := toE2 c0) (y := toE2 c1)
    rw [hW]
    have hle := le_max_left (dist (toE2 c0) (toE2 c1)) (dist (toE2 c3) (toE2 c2))
    linarith
  have hnnH : 0 ≤ round (cropMaxHeight (scaledCornersOf inp)) := by
    rw [round_eq, Int.floor_nonneg]
    have := dist_nonneg (x := toE2 c0) (y := toE2 c3)
    rw [hH]
    have hle := le_max_left (dist (toE2 c0) (toE2 c3)) (dist (toE2 c1) (toE2 c2))
    linarith
  constructor
  · show (((round (cropMaxWidth (scaledCornersOf inp))).toNat : ℤ)) = _
    rw [Int.toNat_of_nonneg hnnW, hW]
  · show (((round (cropMaxHeight (scaledCornersOf inp))).toNat : ℤ)) = _
    rw [Int.toNat_of_nonneg hnnH, hH]

/-- C1 witness: the 4×3 rectangle at the origin produces a 4×3 output. -/
theorem cropOutputDims_spec_witness :
    ((warpedRaster inpRect43).width : ℤ)
        = round (max (dist (toE2 ⟨0, 0⟩) (toE2 ⟨4, 0⟩)) (dist (toE2 ⟨0, 3⟩) (toE2 ⟨4, 3⟩))) ∧
    ((warpedRaster inpRect43).height : ℤ)
        = round (max (dist (toE2 ⟨0, 0⟩) (toE2 ⟨0, 3⟩)) (dist (toE2 ⟨4, 0⟩) (toE2 ⟨4, 3⟩))) := by
  refine cropOutputDims_spec inpRect43 ⟨0, 0⟩ ⟨4, 0⟩ ⟨4, 3⟩ ⟨0, 3⟩ ?_ ?_
  · norm_num [scaledCornersOf, scaleCorners, scaleRatio, inpRect43]
  · norm_num [nondegenerateCorners, degenerateCorners, collinear3]

/-- Solving the rectangle-to-itself correspondence by Gaussian elimination
with partial pivoting yields the identity homography. -/
theorem gauss_rect (W H : ℝ) (hW : 0 < W) (hH : 0 < H) :
    computeTransform (dstRectCorners W H) (dstRectCorners W H)
      = [1, 0, 0, 0, 1, 0, 0, 0, 1] := by
  have hW' : W ≠ 0 := hW.ne'
  have hH' : H ≠ 0 := hH.ne'
  have hWH : (0:ℝ) < W * H := mul_pos hW hH
  have hWH' : W * H ≠ 0 := hWH.ne'
  have haW : |W| = W := abs_of_pos hW
  have haH : |H| = H := abs_of_pos hH
  have hnW : ¬ W < 0 := hW.asymm
  have hnH : ¬ H < 0 := hH.asymm
  have hnWH : ¬ W * H < 0 := hWH.asymm
  norm_num [computeTransform, gaussianSolve, forwardElim, forwardAux, colEntries, rowHead,
    absMaxIdx, absMaxIdxAux, swapTop, elimRow, backSubst, backStep, rhsMinus, corrRows,
    dstRectCorners, List.getD, List.zipWith, List.set, abs_mul, haW, haH, hW, hH, hWH,
    hW', hH', hWH', hnW, hnH, hnWH]

/-- The algebraic 3×3 inverse of the identity homography is itself. -/
theorem invertH_identity :
    invertH ([1, 0, 0, 0, 1, 0, 0, 0, 1] : List ℝ) = [1, 0, 0, 0, 1, 0, 0, 0, 1] := by
  norm_num [invertH, det3, List.getD]

/-- Applying the identity homography leaves a point unchanged. -/
theorem applyH_identity (x y : ℝ) :
    applyH ([1, 0, 0, 0, 1, 0, 0, 0, 1] : List ℝ) x y = ⟨x, y⟩ := by
  norm_num [applyH, List.getD]

/-- C5: when the corners already form the axis-aligned rectangle matching
the source bounds (and display equals original scale), the rectified
raster has the source's dimensions and reproduces it pixel for pixel. -/
theorem rectify_identity (inp : CropInput) (W H : ℕ) (hW : 0 < W) (hH : 0 < H)
    (hc : inp.corners = dstRectCorners (W : ℝ) (H : ℝ))
    (hscale : inp.originalWidth = inp.displayWidth)
    (hd : inp.displayWidth ≠ 0)
    (hsw : inp.source.width = W) (hsh : inp.source.height = H) :
    (warpedRaster inp).width = W ∧ (warpedRaster inp).height = H ∧
    ∀ x y : ℕ, x < W → y < H →
      (warpedRaster inp).pix x y = inp.source.pix x y := by
  have hWR : (0:ℝ) < (W : ℝ) := by exact_mod_cast hW
  have hHR : (0:ℝ) < (H : ℝ) := by exact_mod_cast hH
  have hsc : scaledCornersOf inp = dstRectCorners (W : ℝ) (H : ℝ) := by
    rw [scaledCornersOf, scaleRatio, hscale, div_self hd, hc]
    simp [scaleCorners]
  have hmw : cropMaxWidth (scaledCornersOf inp) = (W : ℝ) := by
    rw [hsc]
    simp only [cropMaxWidth, sideW1, sideW2, hypotR, dstRectCorners, List.getD]
    norm_num
  have hmh : cropMaxHeight (scaledCornersOf inp) = (H : ℝ) := by
    rw [hsc]
    simp only [cropMaxHeight, sideH1, sideH2, hypotR, dstRectCorners, List.getD]
    norm_num
  have hM : cropMatrix inp = [1, 0, 0, 0, 1, 0, 0, 0, 1] := by
    rw [cropMatrix]
    rw [hmw, hmh, hsc]
    exact gauss_rect (W : ℝ) (H : ℝ) hWR hHR
  have hwidth : (warpedRaster inp).width = W := by
    show (round (cropMaxWidth (scaledCornersOf inp))).toNat = W
    rw [hmw, round_natCast, Int.toNat_natCast]
  have hheight : (warpedRaster inp).height = H := by
    show (round (cropMaxHeight (scaledCornersOf inp))).toNat = H
    rw [hmh, round_natCast, Int.toNat_natCast]
  refine ⟨hwidth, hheight, ?_⟩
  intro x y hx hy
  show warpPixel cropInterpFlag (cropMatrix inp) inp.source (x : ℝ) (y : ℝ)
      = inp.source.pix x y
  rw [warpPixel, hM, invertH_identity, applyH_identity]
  show bilinearSample inp.source ((x : ℕ) : ℝ) ((y : ℕ) : ℝ) = inp.source.pix x y
  have hcx : ((x : ℕ) : ℝ) = (((x : ℕ) : ℤ) : ℝ) := by push_cast; rfl
  have hcy : ((y : ℕ) : ℝ) = (((y : ℕ) : ℤ) : ℝ) := by push_cast; rfl
  rw [hcx, hcy, bilinearSample_intCast, pixAt, if_pos]
  · simp
  · refine ⟨Int.natCast_nonneg x, ?_, Int.natCast_nonneg y, ?_⟩
    · rw [hsw]; exact_mod_cast hx
    · rw [hsh]; exact_mod_cast hy

/-- C5 witness: the 1×1 identity crop reproduces the 1×1 source. -/
theorem rectify_identity_witness :
    (warpedRaster inpId).width = 1 ∧ (warpedRaster inpId).height = 1 ∧
    ∀ x y : ℕ, x < 1 → y < 1 →
      (warpedRaster inpId).pix x y = inpId.source.pix x y := by
  refine rectify_identity inpId 1 1 (by norm_num) (by norm_num) ?_ rfl (by norm_num [inpId]) rfl rfl
  norm_num [inpId, dstRectCorners]

end DocuTool
